import Mathlib

/-!
Verification of the proposal-text post-processing pipeline of
`writingassistant.py`: the output checker `validate_output_md` and the
sanitizer `sanitize_output`.  Texts are modelled as `String` (lists of
characters); each regular-expression step of the Python source is embedded
as an executable function on `List Char` that reproduces the leftmost,
non-overlapping match-and-replace semantics of `re.sub` / the existence
semantics of `re.search` for the concrete pattern appearing in the source.
Character classes follow Python for ASCII text: `\s` is space, tab,
newline, carriage return, vertical tab, form feed; `\w` is letters,
digits and underscore.
-/

/-- Python `\s` (ASCII): the whitespace class used by the source regexes
and by `str.strip()`. -/
def wsChar (c : Char) : Bool :=
  c = ' ' || c = '\t' || c = '\n' || c = '\r' || c = '\x0b' || c = '\x0c'

/-- Horizontal whitespace `[ \t]` as in the collapse-spaces regex. -/
def hwsChar (c : Char) : Bool :=
  c = ' ' || c = '\t'

/-- Python `\w` (ASCII): letters, digits, underscore. -/
def wordChar (c : Char) : Bool :=
  (97 ≤ c.toNat && c.toNat ≤ 122) || (65 ≤ c.toNat && c.toNat ≤ 90) ||
  (48 ≤ c.toNat && c.toNat ≤ 57) || c = '_'

/-- ASCII lower-casing, as `str.lower()` / flag `re.I` act on ASCII text. -/
def lowerC (c : Char) : Char :=
  if 65 ≤ c.toNat && c.toNat ≤ 90 then Char.ofNat (c.toNat + 32) else c

/-- Split a character list on `'\n'`; the text is the `'\n'`-intercalation
of the result.  `splitNL []` is `[[]]`, matching the one empty line of the
empty text. -/
def splitNL : List Char → List (List Char)
  | [] => [[]]
  | c :: rest =>
    if c = '\n' then [] :: splitNL rest
    else
      match splitNL rest with
      | [] => [[c]]
      | x :: xs => (c :: x) :: xs

/-- Re-join lines with `'\n'` (inverse of `splitNL`). -/
def joinNL : List (List Char) → List Char
  | [] => []
  | [x] => x
  | x :: xs => x ++ '\n' :: joinNL xs

/-- Case-insensitively strip the pattern `pat` (given lower-case) from the
front of `l`, returning the remainder on success. -/
def stripPre (pat : List Char) (l : List Char) : Option (List Char) :=
  match pat, l with
  | [], l => some l
  | _ :: _, [] => none
  | p :: ps, c :: cs => if lowerC c = lowerC p then stripPre ps cs else none

/-- Case-sensitively strip the literal `pat` from the front of `l`. -/
def stripLit (pat : List Char) (l : List Char) : Option (List Char) :=
  match pat, l with
  | [], l => some l
  | _ :: _, [] => none
  | p :: ps, c :: cs => if c = p then stripLit ps cs else none

/-- A word boundary `\b` holds after a word character when the following
text is empty or starts with a non-word character. -/
def wordEdge (l : List Char) : Bool :=
  match l with
  | [] => true
  | c :: _ => !wordChar c

/-- A line whose content matches `\s*dear\b` (case-insensitive) from its
start: leading whitespace, then `dear`, then a word boundary.  This is the
line-local form of the source patterns `(?im)^\s*dear\b`. -/
def isDearLine (line : List Char) : Bool :=
  match line.dropWhile wsChar with
  | c1 :: c2 :: c3 :: c4 :: rest =>
    (lowerC c1 = 'd' && lowerC c2 = 'e' && lowerC c3 = 'a' && lowerC c4 = 'r')
      && wordEdge rest
  | _ => false

/-- A line consisting only of `\s` characters (the empty line included). -/
def isBlankLine (line : List Char) : Bool :=
  line.all wsChar

/-- `re.search(r"(?im)^\s*dear\b", text)`: some line, after its leading
whitespace, begins with the word `dear`.  (A match whose `\s*` crosses
newlines starts `dear` at the trimmed front of a later line, so existence
over lines is exactly existence of the regex match.) -/
def hasGreeting (l : List Char) : Bool :=
  (splitNL l).any isDearLine

/-- One of the sign-off alternatives `sincerely|best regards|regards`
matches case-insensitively at the head of `l`, with the trailing word
boundary.  The leading boundary is checked by the callers. -/
def signoffHere (l : List Char) : Bool :=
  (match stripPre "sincerely".data l with
   | some r => wordEdge r
   | none => false) ||
  (match stripPre "best regards".data l with
   | some r => wordEdge r
   | none => false) ||
  (match stripPre "regards".data l with
   | some r => wordEdge r
   | none => false)

/-- Scanner for `re.search(r"(?im)\b(sincerely|best regards|regards)\b", text)`:
`prevW` records whether the previous character was a word character (start
of text counts as a non-word position). -/
def hasSignoffA (prevW : Bool) : List Char → Bool
  | [] => false
  | c :: rest =>
    (!prevW && signoffHere (c :: rest)) || hasSignoffA (wordChar c) rest

/-- Whole-word sign-off keyword occurs anywhere in the text. -/
def hasSignoff (l : List Char) : Bool :=
  hasSignoffA false l

/-- The literal rendered into the heading regex by the source's f-string:
in `rf"(?im)^#{1,3}..."` the fragment `{1,3}` is an f-string replacement
field evaluating the tuple `(1, 3)`, so the compiled pattern begins
`^#(1, 3)` — a `#` followed by a regex group matching the literal text
`1, 3` — not a `#` repeated one to three times. -/
def hashGroupLit : List Char := "#1, 3".data

/-- Trailing `\s*$` from the current position: some (possibly empty) run of
whitespace reaches an end of line (`$` matches before `'\n'` or at the end
of the text). -/
def wsToLineEnd (l : List Char) : Bool :=
  match l.dropWhile (fun c => wsChar c && !(c = '\n')) with
  | [] => true
  | c :: _ => c = '\n'

/-- `\s*` then the heading `h` (case-insensitive) then `\s*$`, matched from
the current position.  The headings all start with a letter, so the greedy
`\s*` must stop exactly at the first non-whitespace character. -/
def wsHeadingEnd (h : List Char) (l : List Char) : Bool :=
  match stripPre (h.map lowerC) (l.dropWhile wsChar) with
  | some rest => wsToLineEnd rest
  | none => false

/-- Either alternative of the (f-string-damaged) heading pattern
`(?im)^#(1, 3)\s*H\s*$|(?im)^\s*H\s*$` matches at the current line-start
position. -/
def headingHere (h : List Char) (l : List Char) : Bool :=
  (match stripLit hashGroupLit l with
   | some rest => wsHeadingEnd h rest
   | none => false) ||
  wsHeadingEnd h l

/-- Scan the text for a match of the heading pattern at some line start. -/
def headingSearchA (h : List Char) (atLS : Bool) : List Char → Bool
  | [] => false
  | c :: rest =>
    (atLS && headingHere h (c :: rest)) || headingSearchA h (c = '\n') rest

/-- `re.search` of the heading pattern the source builds for heading `h`. -/
def headingFound (h : String) (l : List Char) : Bool :=
  headingSearchA h.data true l

/-- The fixed heading list `REQUIRED_HEADINGS` of the source. -/
def REQUIRED_HEADINGS : List String :=
  ["Executive Summary",
   "Needs Statement",
   "Project Description",
   "Objectives & Outcomes",
   "Methods & Work Plan",
   "Evaluation & Metrics",
   "Budget & Justification",
   "Timeline",
   "Sustainability",
   "Organizational Capacity",
   "Alignment with Funder Priorities",
   "Risks & Mitigation",
   "Conclusion"]

/-- `[h for h in REQUIRED_HEADINGS if not re.search(..., text)]`. -/
def missingHeadings (l : List Char) : List String :=
  REQUIRED_HEADINGS.filter (fun h => !headingFound h l)

/-- Scanner for `len(re.findall(r"\w+", text))`: counts the maximal runs
of word characters; `inW` records whether the previous character was a
word character. -/
def wcA (inW : Bool) : List Char → Nat
  | [] => 0
  | c :: rest =>
    (if wordChar c && !inW then 1 else 0) + wcA (wordChar c) rest

/-- Number of `\w+` tokens in the text. -/
def wordCount (l : List Char) : Nat :=
  wcA false l

/-- Does `p` occur at the head of `l`? (case-sensitive) -/
def startsWithL : List Char → List Char → Bool
  | [], _ => true
  | _ :: _, [] => false
  | p :: ps, c :: cs => p = c && startsWithL ps cs

/-- Python substring test `p in l`. -/
def hasSubstr (p : List Char) : List Char → Bool
  | [] => startsWithL p []
  | c :: rest => startsWithL p (c :: rest) || hasSubstr p rest

/-- Remove the maximal `\s` suffix (the tail half of `str.strip()`). -/
def dropTrail : List Char → List Char
  | [] => []
  | c :: rest =>
    if (dropTrail rest).isEmpty then if wsChar c then [] else [c]
    else c :: dropTrail rest

/-- Python `str.strip()`. -/
def pyStrip (l : List Char) : List Char :=
  dropTrail (l.dropWhile wsChar)

/-- The issue strings of `validate_output_md`, verbatim. -/
def greetingMsg : String := "Contains a greeting (e.g., \x27Dear\x27)."

def signoffMsg : String := "Contains a sign-off (e.g., \x27Sincerely\x27)."

def bracketMsg : String := "Contains square-bracket placeholders (e.g., [Funder Name])."

def missingMsg (hs : List String) : String :=
  "Missing required section(s): " ++ String.intercalate ", " hs ++ "."

def shortMsg (wc : Nat) : String :=
  "Proposal seems short (" ++ toString wc ++ " words). Aim for 600–1,000 words."

def longMsg (wc : Nat) : String :=
  "Proposal seems long (" ++ toString wc ++ " words). Aim for 600–1,000 words."

def titleMsg : String := "Project title was not clearly echoed."

/-- The two independent word-count tests (`wc < 550`, `wc > 1200`). -/
def wordIssues (wc : Nat) : List String :=
  (if wc < 550 then [shortMsg wc] else []) ++
  (if 1200 < wc then [longMsg wc] else [])

/-- The `inputs` dict as consumed by `validate_output_md`: only the key
`"project_title"` is ever read (`inputs.get("project_title")`), so the
mapping is modelled by that single optional field; `none` is an absent
key. -/
structure ProposalInputs where
  project_title : Option String

/-- An input mapping with no (usable) title field. -/
def emptyInputs : ProposalInputs := ⟨none⟩

/-- `(inputs.get("project_title") or "").strip()`: an absent key and an
empty value both collapse to the empty string via `or ""`. -/
def effTitle (inputs : ProposalInputs) : List Char :=
  pyStrip ((inputs.project_title.getD "").data)

/-- The title-echo clause: `if title and title.lower() not in text.lower()`. -/
def titleIssues (inputs : ProposalInputs) (l : List Char) : List String :=
  if !(effTitle inputs).isEmpty
      && !hasSubstr ((effTitle inputs).map lowerC) (l.map lowerC) then
    [titleMsg]
  else []

/-- `validate_output_md(text, inputs)`: the issue list, in source order
(greeting, sign-off, brackets, missing headings, short, long, title). -/
def validate_output_md (text : String) (inputs : ProposalInputs) : List String :=
  (if hasGreeting text.data then [greetingMsg] else []) ++
  (if hasSignoff text.data then [signoffMsg] else []) ++
  (if text.data.contains '[' || text.data.contains ']' then [bracketMsg] else []) ++
  (if !(missingHeadings text.data).isEmpty then [missingMsg (missingHeadings text.data)] else []) ++
  wordIssues (wordCount text.data) ++
  titleIssues inputs text.data

/-!  The sanitizer `sanitize_output`, step by step. -/

/-- Step 1, `re.sub(r"(?im)^\s*dear\b.*?$", "", text)`, on the line list.
A match starts at a line start, its greedy `\s*` may run through entire
whitespace-only lines, `dear\b` then sits at the trimmed front of the
first non-blank line, and the lazy `.*?$` stops just before that line's
newline.  Hence: a blank-line run immediately preceding a `dear` line is
deleted together with its newlines, and a `dear` line loses its content
but keeps its newline. -/
def stripGreetings : List (List Char) → List (List Char)
  | [] => []
  | line :: rest =>
    if isDearLine line then [] :: stripGreetings rest
    else if isBlankLine line
        && (match rest.dropWhile isBlankLine with
            | l :: _ => isDearLine l
            | [] => false) then
      stripGreetings rest
    else line :: stripGreetings rest

def sanitizeStep1 (l : List Char) : List Char :=
  joinNL (stripGreetings (splitNL l))

/-- Step 2, `re.sub(r"(?is)\b(sincerely|best regards|regards)\b.*$", "", text)`:
with `re.S` the `.*$` swallows everything after the first whole-word
sign-off keyword, so the text is truncated at the leftmost such match. -/
def sanitizeStep2A (prevW : Bool) : List Char → List Char
  | [] => []
  | c :: rest =>
    if !prevW && signoffHere (c :: rest) then []
    else c :: sanitizeStep2A (wordChar c) rest

def sanitizeStep2 (l : List Char) : List Char :=
  sanitizeStep2A false l

/-- Step 3, `re.sub(r"\[.*?\]", "", text)`: from a `[`, the lazy dot run
(which cannot cross `'\n'`) ends at the first following `]`; if a newline
or the end of the text intervenes first there is no match there and the
scanned characters are kept.  `buf` holds the pending `[...` candidate. -/
def sanitizeStep3A : Option (List Char) → List Char → List Char
  | none, [] => []
  | some acc, [] => acc
  | none, c :: rest =>
    if c = '[' then sanitizeStep3A (some ['[']) rest
    else c :: sanitizeStep3A none rest
  | some acc, c :: rest =>
    if c = ']' then sanitizeStep3A none rest
    else if c = '\n' then acc ++ '\n' :: sanitizeStep3A none rest
    else sanitizeStep3A (some (acc ++ [c])) rest

def sanitizeStep3 (l : List Char) : List Char :=
  sanitizeStep3A none l

/-- What `re.sub(r"\n{3,}", "\n\n", ...)` leaves of a newline run of
length `p`: runs of at most two stay, longer runs collapse to two. -/
def nlOut : Nat → List Char
  | 0 => []
  | 1 => ['\n']
  | _ => ['\n', '\n']

/-- Step 4: collapse runs of three or more newlines to exactly two.
`p` counts the newlines read since the last non-newline character. -/
def sanitizeStep4A (p : Nat) : List Char → List Char
  | [] => nlOut p
  | c :: rest =>
    if c = '\n' then sanitizeStep4A (p + 1) rest
    else nlOut p ++ c :: sanitizeStep4A 0 rest

def sanitizeStep4 (l : List Char) : List Char :=
  sanitizeStep4A 0 l

/-- What `re.sub(r"[ \t]{2,}", " ", ...)` leaves of a horizontal-whitespace
run: a single space or tab stays itself, longer runs become one space. -/
def hwsOut : List Char → List Char
  | [] => []
  | [c] => [c]
  | _ => [' ']

/-- Step 5: collapse runs of two or more spaces/tabs into one space.
`run` accumulates the horizontal-whitespace run being read. -/
def sanitizeStep5A (run : List Char) : List Char → List Char
  | [] => hwsOut run
  | c :: rest =>
    if hwsChar c then sanitizeStep5A (run ++ [c]) rest
    else hwsOut run ++ c :: sanitizeStep5A [] rest

def sanitizeStep5 (l : List Char) : List Char :=
  sanitizeStep5A [] l

/-- `sanitize_output(text)`: the five regex substitutions in source order,
then `str.strip()`. -/
def sanitize_output (text : String) : String :=
  ⟨pyStrip (sanitizeStep5 (sanitizeStep4 (sanitizeStep3 (sanitizeStep2
    (sanitizeStep1 text.data)))))⟩

/-- Modelled from the spec: the excessive missing-value marker check
(spec §4.1 check 6 and §6 `CheckConfig.missing_marker` /
`missing_marker_threshold`) is implemented only by repository variants
that are not included under `src/` — the `validate_output_md` in
`src/writingassistant.py` has no marker check.  Per the spec: count the
whole-word occurrences of the marker token. -/
def markerCountA (marker : List Char) (prevW : Bool) : List Char → Nat
  | [] => 0
  | c :: rest =>
    (if !prevW
        && (match stripLit marker (c :: rest) with
            | some r => wordEdge r
            | none => false) then 1 else 0)
      + markerCountA marker (wordChar c) rest

/-- Modelled from the spec: whole-word occurrence count of the
missing-value marker (default `"TBD"`). -/
def markerCount (marker : String) (l : List Char) : Nat :=
  markerCountA marker.data false l

/-- Modelled from the spec: the issue recommending more input detail. -/
def markerMsg : String :=
  "Output contains many missing-value markers; provide more input detail."

/-- Modelled from the spec: emit the marker issue when the whole-word
count of the marker reaches or exceeds the threshold (default 3). -/
def markerCheck (marker : String) (threshold : Nat) (text : String) : List String :=
  if threshold ≤ markerCount marker text.data then [markerMsg] else []

/-- A text of exactly `n` one-letter `\w+` tokens, for boundary witnesses. -/
def mkWords (n : Nat) : String :=
  ⟨(List.replicate n ['w', ' ']).flatten⟩

/-- No three consecutive newline characters occur in `l`. -/
def tripleNLFree : List Char → Bool
  | a :: b :: c :: r =>
    !(a = '\n' && b = '\n' && c = '\n') && tripleNLFree (b :: c :: r)
  | _ => true

/-- No two consecutive space-or-tab characters occur in `l`. -/
def hwsPairFree : List Char → Bool
  | a :: b :: r => !(hwsChar a && hwsChar b) && hwsPairFree (b :: r)
  | _ => true

/-- The first and last characters of `l` (when present) are not
whitespace. -/
def noEdgeWS (l : List Char) : Bool :=
  (match l with
   | [] => true
   | c :: _ => !wsChar c) &&
  (match l.getLast? with
   | none => true
   | some c => !wsChar c)

/-!  Theorems for the claims. -/

/-- Claim C1, counterexample: `sanitize` is not idempotent.  Removing the
bracket placeholder `[x]` exposes a line beginning with `Dear`, which only
a second pass removes. -/
theorem c1_sanitize_not_idempotent :
    sanitize_output (sanitize_output "[x]Dear friend\nHello") ≠
      sanitize_output "[x]Dear friend\nHello" := by decide

/-- Claim C1, amended: `sanitize(sanitize(s)) = sanitize(s)` fails in
general because bracket removal can expose a greeting (or sign-off)
pattern for the earlier steps: one pass of the pipeline turns
`"[x]Dear friend\nHello"` into `"Dear friend\nHello"`, and a second pass
turns that into `"Hello"`. -/
theorem c1_bracket_exposes_greeting :
    sanitize_output "[x]Dear friend\nHello" = "Dear friend\nHello" ∧
    sanitize_output "Dear friend\nHello" = "Hello" := by decide

/-- Claim C2, code bug: the f-string interpolation turns the intended
`#{1,3}` quantifier into the literal group `(1, 3)`, so the heading
pattern only matches either the literal prefix `#1, 3` or a bare heading
line; `"## Executive Summary"` is not matched and the heading is reported
missing, while a bare `"Executive Summary"` line is found. -/
theorem c2_heading_regex_bug :
    headingFound "Executive Summary" "## Executive Summary".data = false ∧
    "Executive Summary" ∈ missingHeadings "## Executive Summary".data ∧
    headingFound "Executive Summary" "Executive Summary".data = true := by decide

/-- Claim C4, counterexample: the greeting-line substitution
`(?im)^\s*dear\b.*?$` → `""` ends the lazy `.*?$` just before the line's
newline, so the newline survives and an empty line remains. -/
theorem c4_dear_newline_counterexample :
    sanitize_output "A\nDear B\nC" ≠ "A\nC" := by decide

/-- Claim C4, amended: a line whose trimmed content begins
case-insensitively with `Dear` loses its content but keeps its trailing
line break, leaving an empty line: sanitizing `"A\nDear B\nC"` yields
`"A\n\nC"`. -/
theorem c4_dear_line_keeps_newline :
    sanitize_output "A\nDear B\nC" = "A\n\nC" := by decide

/-- Claim C5, counterexample: the bracket pattern `\[.*?\]` cannot cross a
newline (`.` excludes `'\n'`), so a bracket pair spanning two lines is
left entirely in place by the sanitizer. -/
theorem c5_cross_line_bracket_kept :
    sanitize_output "[b\nc]" = "[b\nc]" := by decide

/-- Helper for C5: once inside a pending `[` candidate, the buffered
characters and the closing `]` are dropped, provided no `]` or newline
occurs in between. -/
theorem sanitizeStep3A_closes (b : List Char) :
    ∀ (acc rest : List Char), (∀ c ∈ b, c ≠ ']' ∧ c ≠ '\n') →
      sanitizeStep3A (some acc) (b ++ ']' :: rest) = sanitizeStep3A none rest := by
  induction b with
  | nil =>
    intro acc rest _
    simp [sanitizeStep3A]
  | cons c b ih =>
    intro acc rest h
    obtain ⟨h1, h2⟩ := h c (by simp)
    show sanitizeStep3A (some acc) (c :: (b ++ ']' :: rest)) = _
    rw [sanitizeStep3A]
    rw [if_neg h1, if_neg h2]
    exact ih _ rest (fun x hx => h x (by simp [hx]))

/-- Claim C5, amended: the sanitizer removes every substring delimited by
`[` and the next following `]` only when the two lie on the same line (no
newline between them); such a same-line bracket group is deleted entirely,
while pairs split across lines are kept. -/
theorem c5_same_line_bracket_removed (b rest : List Char)
    (h : ∀ c ∈ b, c ≠ ']' ∧ c ≠ '\n') :
    sanitizeStep3A none ('[' :: (b ++ ']' :: rest)) = sanitizeStep3A none rest := by
  rw [show sanitizeStep3A none ('[' :: (b ++ ']' :: rest)) =
        sanitizeStep3A (some ['[']) (b ++ ']' :: rest) by simp [sanitizeStep3A]]
  exact sanitizeStep3A_closes b ['['] rest h

/-- Witness for C5's amended theorem at the placeholder `[Funder Name]`. -/
theorem c5_same_line_bracket_removed_witness :
    sanitizeStep3A none ('[' :: ("Funder Name".data ++ ']' :: " y".data)) =
      sanitizeStep3A none " y".data :=
  c5_same_line_bracket_removed "Funder Name".data " y".data (by decide)

/-- Claim C8: the spec's end-to-end sanitizer example.  The greeting line
is removed, the text is truncated at the whole-word `Sincerely`, and the
whitespace normalisation strips the leftover newlines. -/
theorem c8_sanitize_example :
    sanitize_output "Dear Funder,\nWe are pleased...\nSincerely,\nJane" =
      "We are pleased..." := by decide

/-- Claim C3 (marker check modelled from the spec): with threshold 3, the
marker issue is emitted exactly when the whole-word count of `TBD`
reaches 3; with a smaller count no issue is emitted. -/
theorem c3_marker_threshold (text : String) :
    (3 ≤ markerCount "TBD" text.data →
      markerMsg ∈ markerCheck "TBD" 3 text) ∧
    (markerCount "TBD" text.data < 3 → markerCheck "TBD" 3 text = []) := by
  constructor
  · intro h
    unfold markerCheck
    rw [if_pos h]
    simp
  · intro h
    unfold markerCheck
    rw [if_neg (by omega)]

/-- Witness for C3: four whole-word `TBD`s trigger the issue, two do not
(`TBDx`-style occurrences would not count). -/
theorem c3_marker_threshold_witness :
    markerMsg ∈ markerCheck "TBD" 3 "TBD a TBD b TBD c TBD" ∧
    markerCheck "TBD" 3 "TBD and TBD" = [] :=
  ⟨(c3_marker_threshold "TBD a TBD b TBD c TBD").1 (by decide),
   (c3_marker_threshold "TBD and TBD").2 (by decide)⟩

/-- Claim C6: the word-count ranges are mutually exclusive, so at most one
length issue is emitted; a text of exactly 550 tokens yields no length
issue and one of 549 tokens yields the short-length issue. -/
theorem c6_word_count_boundary (text : String) :
    (wordIssues (wordCount text.data)).length ≤ 1 ∧
    (wordCount text.data = 550 → wordIssues (wordCount text.data) = []) ∧
    (wordCount text.data = 549 →
      wordIssues (wordCount text.data) = [shortMsg 549]) := by
  refine ⟨?_, ?_, ?_⟩
  · unfold wordIssues
    split_ifs with h1 h2 h2 <;> simp
    omega
  · intro h; rw [h]; rfl
  · intro h; rw [h]; rfl

set_option maxRecDepth 40000 in
/-- Witness for C6 at texts of exactly 550 and 549 word tokens. -/
theorem c6_word_count_boundary_witness :
    wordIssues (wordCount (mkWords 550).data) = [] ∧
    wordIssues (wordCount (mkWords 549).data) = [shortMsg 549] :=
  ⟨(c6_word_count_boundary (mkWords 550)).2.1 (by decide),
   (c6_word_count_boundary (mkWords 549)).2.2 (by decide)⟩

/-- Each conditional single-issue component contributes at most one issue. -/
theorem length_cond_le (c : Prop) [Decidable c] (x : String) :
    (if c then [x] else []).length ≤ 1 := by
  split <;> simp

/-- Claim C7: the checker is a total function — every text/input pair maps
to an issue list (of at most seven issues, one per check); on the empty
text with an empty input mapping the result contains the word-count issue
for zero words and no greeting, sign-off, or bracket issue. -/
theorem c7_checker_total :
    (∀ (text : String) (inputs : ProposalInputs),
        (validate_output_md text inputs).length ≤ 7) ∧
    shortMsg 0 ∈ validate_output_md "" emptyInputs ∧
    greetingMsg ∉ validate_output_md "" emptyInputs ∧
    signoffMsg ∉ validate_output_md "" emptyInputs ∧
    bracketMsg ∉ validate_output_md "" emptyInputs := by
  refine ⟨?_, by decide, by decide, by decide, by decide⟩
  intro text inputs
  unfold validate_output_md
  have h1 := length_cond_le (hasGreeting text.data = true) greetingMsg
  have h2 := length_cond_le (hasSignoff text.data = true) signoffMsg
  have h3 := length_cond_le
    ((text.data.contains '[' || text.data.contains ']') = true) bracketMsg
  have h4 := length_cond_le ((!(missingHeadings text.data).isEmpty) = true)
    (missingMsg (missingHeadings text.data))
  have h5 : (wordIssues (wordCount text.data)).length ≤ 2 := by
    unfold wordIssues
    split_ifs <;> simp
  have h6 : (titleIssues inputs text.data).length ≤ 1 := by
    unfold titleIssues
    split <;> simp
  simp only [List.length_append]
  omega

/-- The short-length issue always differs from the title issue (they
disagree at their fourth character). -/
theorem shortMsg_ne_titleMsg (wc : Nat) : shortMsg wc ≠ titleMsg := by
  intro h
  have hd := congrArg (fun s => s.data.take 4) h
  simp only [shortMsg, String.data_append] at hd
  rw [List.append_assoc,
    List.take_append_of_le_length (by decide :
      4 ≤ "Proposal seems short (".data.length)] at hd
  exact absurd hd (by decide)

/-- The long-length issue always differs from the title issue. -/
theorem longMsg_ne_titleMsg (wc : Nat) : longMsg wc ≠ titleMsg := by
  intro h
  have hd := congrArg (fun s => s.data.take 4) h
  simp only [longMsg, String.data_append] at hd
  rw [List.append_assoc,
    List.take_append_of_le_length (by decide :
      4 ≤ "Proposal seems long (".data.length)] at hd
  exact absurd hd (by decide)

/-- The missing-headings issue always differs from the title issue. -/
theorem missingMsg_ne_titleMsg (hs : List String) : missingMsg hs ≠ titleMsg := by
  intro h
  have hd := congrArg (fun s => s.data.take 1) h
  simp only [missingMsg, String.data_append] at hd
  rw [List.append_assoc,
    List.take_append_of_le_length (by decide :
      1 ≤ "Missing required section(s): ".data.length)] at hd
  exact absurd hd (by decide)

/-- The title issue appears in the checker's output exactly when the
title-echo clause fires. -/
theorem titleMsg_mem_validate (text : String) (inputs : ProposalInputs) :
    titleMsg ∈ validate_output_md text inputs ↔
      titleIssues inputs text.data = [titleMsg] := by
  have hg : titleMsg ∉ (if hasGreeting text.data then [greetingMsg] else []) := by
    split <;> decide
  have hs : titleMsg ∉ (if hasSignoff text.data then [signoffMsg] else []) := by
    split <;> decide
  have hb : titleMsg ∉
      (if text.data.contains '[' || text.data.contains ']' then [bracketMsg]
       else []) := by
    split <;> decide
  have hm : titleMsg ∉
      (if !(missingHeadings text.data).isEmpty then
        [missingMsg (missingHeadings text.data)] else []) := by
    split
    · simp only [List.mem_singleton]
      exact fun h => missingMsg_ne_titleMsg _ h.symm
    · simp
  have hw1 : titleMsg ∉
      (if wordCount text.data < 550 then [shortMsg (wordCount text.data)]
       else []) := by
    split
    · simp only [List.mem_singleton]
      exact fun h => shortMsg_ne_titleMsg _ h.symm
    · simp
  have hw2 : titleMsg ∉
      (if 1200 < wordCount text.data then [longMsg (wordCount text.data)]
       else []) := by
    split
    · simp only [List.mem_singleton]
      exact fun h => longMsg_ne_titleMsg _ h.symm
    · simp
  have hw : titleMsg ∉ wordIssues (wordCount text.data) := by
    unfold wordIssues
    intro hmem
    rcases List.mem_append.mp hmem with h | h
    · exact hw1 h
    · exact hw2 h
  unfold validate_output_md
  simp only [List.mem_append, hg, hs, hb, hm, hw, false_or]
  unfold titleIssues
  split <;> simp

/-- Claim C9: if the stripped title is non-empty and its lower-cased form
is not a substring of the lower-cased text, the checker reports the
title-not-echoed issue; if it is a substring, it does not. -/
theorem c9_title_echo (text : String) (inputs : ProposalInputs) :
    (effTitle inputs ≠ [] →
      hasSubstr ((effTitle inputs).map lowerC) (text.data.map lowerC) = false →
      titleMsg ∈ validate_output_md text inputs) ∧
    (hasSubstr ((effTitle inputs).map lowerC) (text.data.map lowerC) = true →
      titleMsg ∉ validate_output_md text inputs) := by
  constructor
  · intro h1 h2
    rw [titleMsg_mem_validate]
    unfold titleIssues
    rw [if_pos]
    rw [Bool.and_eq_true, h2]
    refine ⟨?_, rfl⟩
    cases h : (effTitle inputs).isEmpty
    · rfl
    · exact absurd (List.isEmpty_iff.mp h) h1
  · intro h2
    rw [titleMsg_mem_validate]
    unfold titleIssues
    rw [if_neg]
    · simp
    · rw [h2]
      simp

/-- Witness for C9: a generic text misses the title and is flagged; a
text containing `WETLAND RESTORATION` echoes `Wetland Restoration`
case-insensitively and is not flagged. -/
theorem c9_title_echo_witness :
    titleMsg ∈ validate_output_md "generic text" ⟨some "Wetland Restoration"⟩ ∧
    titleMsg ∉ validate_output_md "has WETLAND RESTORATION inside"
      ⟨some "Wetland Restoration"⟩ :=
  ⟨(c9_title_echo "generic text" ⟨some "Wetland Restoration"⟩).1
      (by decide) (by decide),
   (c9_title_echo "has WETLAND RESTORATION inside"
      ⟨some "Wetland Restoration"⟩).2 (by decide)⟩

/-- Dropping the head preserves absence of newline triples. -/
theorem tripleNLFree_tail {a : Char} {l : List Char}
    (h : tripleNLFree (a :: l) = true) : tripleNLFree l = true := by
  match l with
  | [] => rfl
  | [b] => rfl
  | b :: c :: r =>
    simp only [tripleNLFree, Bool.and_eq_true] at h
    exact h.2

/-- Prepending a non-newline character preserves absence of triples. -/
theorem tripleNLFree_cons {c : Char} {l : List Char} (hc : c ≠ '\n')
    (h : tripleNLFree l = true) : tripleNLFree (c :: l) = true := by
  match l with
  | [] => rfl
  | [b] => rfl
  | b :: d :: r =>
    simp only [tripleNLFree, Bool.and_eq_true] at h ⊢
    exact ⟨by simp [hc], h⟩

/-- Prepending one newline is safe when the list does not already start
with two newlines. -/
theorem tripleNLFree_nl_cons {l : List Char} (h2 : tripleNLFree l = true)
    (h3 : l.take 2 ≠ ['\n', '\n']) : tripleNLFree ('\n' :: l) = true := by
  match l with
  | [] => rfl
  | [b] => rfl
  | b :: d :: r =>
    have hb : ¬(b = '\n' ∧ d = '\n') := by
      intro hbd
      exact h3 (by simp [hbd.1, hbd.2])
    simp only [tripleNLFree, Bool.and_eq_true] at h2 ⊢
    refine ⟨by simp; exact not_and_or.mp hb, h2⟩

/-- A list starting with a non-newline character cannot start with two
newlines. -/
theorem take_two_ne_head {c : Char} {l : List Char} (hc : c ≠ '\n') :
    (c :: l).take 2 ≠ ['\n', '\n'] := by
  intro h
  apply hc
  have := congrArg (fun t => t.head?) h
  simpa using this

/-- A list whose second character is not a newline cannot start with two
newlines. -/
theorem take_two_ne_snd {a c : Char} {l : List Char} (hc : c ≠ '\n') :
    (a :: c :: l).take 2 ≠ ['\n', '\n'] := by
  intro h
  apply hc
  simp [List.take] at h
  exact h.2

/-- The newline-collapsing pass leaves no three consecutive newlines. -/
theorem sanitizeStep4A_tripleNLFree :
    ∀ (l : List Char) (p : Nat), tripleNLFree (sanitizeStep4A p l) = true := by
  intro l
  induction l with
  | nil =>
    intro p
    match p with
    | 0 => rfl
    | 1 => rfl
    | _ + 2 => rfl
  | cons c rest ih =>
    intro p
    by_cases hc : c = '\n'
    · simp only [sanitizeStep4A]
      rw [if_pos hc]
      exact ih (p + 1)
    · simp only [sanitizeStep4A]
      rw [if_neg hc]
      match p with
      | 0 =>
        simpa using tripleNLFree_cons hc (ih 0)
      | 1 =>
        show tripleNLFree ('\n' :: c :: sanitizeStep4A 0 rest) = true
        exact tripleNLFree_nl_cons (tripleNLFree_cons hc (ih 0)) (take_two_ne_head hc)
      | _ + 2 =>
        show tripleNLFree ('\n' :: '\n' :: c :: sanitizeStep4A 0 rest) = true
        have hX := tripleNLFree_cons hc (ih 0)
        exact tripleNLFree_nl_cons
          (tripleNLFree_nl_cons hX (take_two_ne_head hc)) (take_two_ne_snd hc)

/-- Spaces and tabs are not newlines. -/
theorem hwsChar_ne_nl {c : Char} (h : hwsChar c = true) : c ≠ '\n' := by
  unfold hwsChar at h
  simp only [Bool.or_eq_true, decide_eq_true_eq] at h
  rcases h with h | h <;> subst h <;> decide

/-- Dropping the head preserves absence of space/tab pairs. -/
theorem hwsPairFree_tail {a : Char} {l : List Char}
    (h : hwsPairFree (a :: l) = true) : hwsPairFree l = true := by
  match l with
  | [] => rfl
  | b :: r =>
    simp only [hwsPairFree, Bool.and_eq_true] at h
    exact h.2

/-- Prepending a non-space/tab character preserves absence of pairs. -/
theorem hwsPairFree_cons {c : Char} {l : List Char} (hc : hwsChar c = false)
    (h : hwsPairFree l = true) : hwsPairFree (c :: l) = true := by
  match l with
  | [] => rfl
  | b :: r =>
    simp only [hwsPairFree, Bool.and_eq_true] at h ⊢
    exact ⟨by simp [hc], h⟩

/-- A space/tab may be prepended before a non-space/tab head. -/
theorem hwsPairFree_hws_cons {a c : Char} {l : List Char}
    (hc : hwsChar c = false) (h : hwsPairFree (c :: l) = true) :
    hwsPairFree (a :: c :: l) = true := by
  simp only [hwsPairFree, Bool.and_eq_true] at h ⊢
  exact ⟨by simp [hc], h⟩

/-- The space-collapsing pass leaves no space/tab pairs, for any pending
run of horizontal whitespace. -/
theorem sanitizeStep5A_pairFree :
    ∀ (l run : List Char), hwsPairFree (sanitizeStep5A run l) = true := by
  intro l
  induction l with
  | nil =>
    intro run
    match run with
    | [] => rfl
    | [a] => rfl
    | a :: b :: r => rfl
  | cons c rest ih =>
    intro run
    by_cases hc : hwsChar c = true
    · simp only [sanitizeStep5A]
      rw [if_pos hc]
      exact ih (run ++ [c])
    · simp only [sanitizeStep5A]
      rw [if_neg hc]
      have hcf : hwsChar c = false := by
        cases h : hwsChar c
        · rfl
        · exact absurd h hc
      have hcX : hwsPairFree (c :: sanitizeStep5A [] rest) = true :=
        hwsPairFree_cons hcf (ih [])
      match run with
      | [] => simpa using hcX
      | [a] =>
        show hwsPairFree (a :: c :: sanitizeStep5A [] rest) = true
        exact hwsPairFree_hws_cons hcf hcX
      | a :: b :: r =>
        show hwsPairFree (' ' :: c :: sanitizeStep5A [] rest) = true
        exact hwsPairFree_hws_cons hcf hcX

/-- When the pending run is non-empty, the collapsing pass emits a
space/tab first. -/
theorem sanitizeStep5A_head_hws :
    ∀ (l run : List Char), run ≠ [] → (∀ c ∈ run, hwsChar c = true) →
      ∀ {x : Char} {t : List Char},
        sanitizeStep5A run l = x :: t → hwsChar x = true := by
  intro l
  induction l with
  | nil =>
    intro run hne hall x t h
    match run with
    | [] => exact absurd rfl hne
    | [a] =>
      have : a = x := by simpa [sanitizeStep5A, hwsOut] using congrArg List.head? h
      exact this ▸ hall a (by simp)
    | a :: b :: r =>
      have : (' ' : Char) = x := by
        simpa [sanitizeStep5A, hwsOut] using congrArg List.head? h
      rw [← this]
      decide
  | cons c rest ih =>
    intro run hne hall x t h
    by_cases hc : hwsChar c = true
    · simp only [sanitizeStep5A] at h
      rw [if_pos hc] at h
      refine ih (run ++ [c]) (by simp) ?_ h
      intro y hy
      rcases List.mem_append.mp hy with h1 | h1
      · exact hall y h1
      · simp at h1
        subst h1
        exact hc
    · simp only [sanitizeStep5A] at h
      rw [if_neg hc] at h
      match run with
      | [] => exact absurd rfl hne
      | [a] =>
        have : a = x := by simpa [hwsOut] using congrArg List.head? h
        exact this ▸ hall a (by simp)
      | a :: b :: r =>
        have : (' ' : Char) = x := by simpa [hwsOut] using congrArg List.head? h
        rw [← this]
        decide

/-- If the collapsing pass (with empty pending run) emits a newline first,
the input began with that newline. -/
theorem sanitizeStep5A_nil_nl_head :
    ∀ (rest : List Char) {t : List Char},
      sanitizeStep5A [] rest = '\n' :: t →
        ∃ r2, rest = '\n' :: r2 ∧ sanitizeStep5A [] r2 = t := by
  intro rest t h
  match rest with
  | [] => exact absurd h (by simp [sanitizeStep5A, hwsOut])
  | r0 :: r1 =>
    by_cases h0 : hwsChar r0 = true
    · exfalso
      have heq : sanitizeStep5A [] (r0 :: r1) = sanitizeStep5A [r0] r1 := by
        simp only [sanitizeStep5A]
        rw [if_pos h0]
        rfl
      rw [heq] at h
      have := sanitizeStep5A_head_hws r1 [r0] (by simp) (by simpa) h
      exact absurd this (by decide)
    · have heq : sanitizeStep5A [] (r0 :: r1) = r0 :: sanitizeStep5A [] r1 := by
        simp only [sanitizeStep5A]
        rw [if_neg h0]
        rfl
      rw [heq] at h
      have h1 : r0 = '\n' := by simpa using congrArg List.head? h
      have h2 : sanitizeStep5A [] r1 = t := by simpa using congrArg List.tail h
      exact ⟨r1, by rw [h1], h2⟩

/-- The space-collapsing pass preserves absence of newline triples. -/
theorem sanitizeStep5A_tripleNLFree :
    ∀ (l run : List Char), (∀ c ∈ run, hwsChar c = true) →
      tripleNLFree l = true → tripleNLFree (sanitizeStep5A run l) = true := by
  intro l
  induction l with
  | nil =>
    intro run _ _
    match run with
    | [] => rfl
    | [a] =>
      show tripleNLFree [a] = true
      rfl
    | a :: b :: r => rfl
  | cons c rest ih =>
    intro run hall htf
    have htail : tripleNLFree rest = true := tripleNLFree_tail htf
    by_cases hc : hwsChar c = true
    · simp only [sanitizeStep5A]
      rw [if_pos hc]
      refine ih (run ++ [c]) ?_ htail
      intro y hy
      rcases List.mem_append.mp hy with h1 | h1
      · exact hall y h1
      · simp at h1
        subst h1
        exact hc
    · simp only [sanitizeStep5A]
      rw [if_neg hc]
      have hX : tripleNLFree (sanitizeStep5A [] rest) = true :=
        ih [] (by simp) htail
      have hcX : tripleNLFree (c :: sanitizeStep5A [] rest) = true := by
        by_cases hcn : c = '\n'
        · subst hcn
          apply tripleNLFree_nl_cons hX
          intro h2
          have hshape : ∃ t, sanitizeStep5A [] rest = '\n' :: '\n' :: t := by
            match hX2 : sanitizeStep5A [] rest with
            | [] => rw [hX2] at h2; simp at h2
            | [a] => rw [hX2] at h2; simp at h2
            | a :: b :: t =>
              rw [hX2] at h2
              simp [List.take] at h2
              exact ⟨t, by rw [h2.1, h2.2]⟩
          obtain ⟨t, ht⟩ := hshape
          obtain ⟨r2, hr2, hs2⟩ := sanitizeStep5A_nil_nl_head rest ht
          obtain ⟨r3, hr3, _⟩ := sanitizeStep5A_nil_nl_head r2 hs2
          rw [hr2, hr3] at htf
          simp [tripleNLFree] at htf
        · exact tripleNLFree_cons hcn hX
      match run with
      | [] => simpa using hcX
      | [a] =>
        show tripleNLFree (a :: c :: sanitizeStep5A [] rest) = true
        exact tripleNLFree_cons (hwsChar_ne_nl (hall a (by simp))) hcX
      | a :: b :: r =>
        show tripleNLFree (' ' :: c :: sanitizeStep5A [] rest) = true
        exact tripleNLFree_cons (by decide) hcX

/-- The head surviving `dropWhile` fails the predicate. -/
theorem dropWhile_head_not (p : Char → Bool) :
    ∀ (l : List Char) {x : Char} {t : List Char},
      l.dropWhile p = x :: t → p x = false := by
  intro l
  induction l with
  | nil => intro x t h; simp at h
  | cons c rest ih =>
    intro x t h
    rw [List.dropWhile_cons] at h
    split at h
    · exact ih h
    · next hc =>
      have hx : c = x := by simpa using congrArg List.head? h
      subst hx
      cases hb : p c
      · rfl
      · exact absurd hb hc

/-- `dropTrail` preserves the head. -/
theorem dropTrail_head :
    ∀ {l : List Char} {x : Char} {t : List Char},
      dropTrail l = x :: t → ∃ t2, l = x :: t2 := by
  intro l x t h
  match l with
  | [] => simp [dropTrail] at h
  | c :: rest =>
    simp only [dropTrail] at h
    by_cases he : (dropTrail rest).isEmpty = true
    · rw [if_pos he] at h
      by_cases hw : wsChar c = true
      · rw [if_pos hw] at h
        exact absurd h (by simp)
      · rw [if_neg hw] at h
        have : c = x := by simpa using congrArg List.head? h
        exact ⟨rest, by rw [this]⟩
    · rw [if_neg he] at h
      have : c = x := by simpa using congrArg List.head? h
      exact ⟨rest, by rw [this]⟩

/-- `dropTrail` preserves the first two characters. -/
theorem dropTrail_two :
    ∀ {l : List Char} {x y : Char} {t : List Char},
      dropTrail l = x :: y :: t → ∃ t2, l = x :: y :: t2 := by
  intro l x y t h
  match l with
  | [] => simp [dropTrail] at h
  | c :: rest =>
    simp only [dropTrail] at h
    by_cases he : (dropTrail rest).isEmpty = true
    · rw [if_pos he] at h
      by_cases hw : wsChar c = true
      · rw [if_pos hw] at h
        exact absurd h (by simp)
      · rw [if_neg hw] at h
        exact absurd h (by simp)
    · rw [if_neg he] at h
      have hcx : c = x := by simpa using congrArg List.head? h
      have htl : dropTrail rest = y :: t := by simpa using congrArg List.tail h
      obtain ⟨t3, ht3⟩ := dropTrail_head htl
      exact ⟨t3, by rw [hcx, ht3]⟩

/-- The last character surviving `dropTrail` is not whitespace. -/
theorem dropTrail_last_not_ws :
    ∀ (l : List Char) {x : Char},
      (dropTrail l).getLast? = some x → wsChar x = false := by
  intro l
  induction l with
  | nil => intro x h; simp [dropTrail] at h
  | cons c rest ih =>
    intro x h
    simp only [dropTrail] at h
    by_cases he : (dropTrail rest).isEmpty = true
    · rw [if_pos he] at h
      by_cases hw : wsChar c = true
      · rw [if_pos hw] at h
        simp at h
      · rw [if_neg hw] at h
        have : c = x := by simpa using h
        subst this
        cases hb : wsChar c
        · rfl
        · exact absurd hb hw
    · rw [if_neg he] at h
      rcases hdt : dropTrail rest with _ | ⟨z, r⟩
      · rw [hdt] at he
        simp at he
      · rw [hdt] at h
        rw [List.getLast?_cons_cons] at h
        exact ih (hdt ▸ h)

/-- `dropWhile` preserves absence of newline triples. -/
theorem tripleNLFree_dropWhile (p : Char → Bool) :
    ∀ (l : List Char), tripleNLFree l = true →
      tripleNLFree (l.dropWhile p) = true := by
  intro l
  induction l with
  | nil => intro h; exact h
  | cons c rest ih =>
    intro h
    rw [List.dropWhile_cons]
    split
    · exact ih (tripleNLFree_tail h)
    · exact h

/-- `dropWhile` preserves absence of space/tab pairs. -/
theorem hwsPairFree_dropWhile (p : Char → Bool) :
    ∀ (l : List Char), hwsPairFree l = true →
      hwsPairFree (l.dropWhile p) = true := by
  intro l
  induction l with
  | nil => intro h; exact h
  | cons c rest ih =>
    intro h
    rw [List.dropWhile_cons]
    split
    · exact ih (hwsPairFree_tail h)
    · exact h

/-- `dropTrail` preserves absence of newline triples. -/
theorem tripleNLFree_dropTrail :
    ∀ (l : List Char), tripleNLFree l = true →
      tripleNLFree (dropTrail l) = true := by
  intro l
  induction l with
  | nil => intro h; exact h
  | cons c rest ih =>
    intro htf
    have htail := tripleNLFree_tail htf
    simp only [dropTrail]
    by_cases he : (dropTrail rest).isEmpty = true
    · rw [if_pos he]
      by_cases hw : wsChar c = true
      · rw [if_pos hw]
        rfl
      · rw [if_neg hw]
        rfl
    · rw [if_neg he]
      rcases hdt : dropTrail rest with _ | ⟨y, r⟩
      · rw [hdt] at he
        simp at he
      · have hyr : tripleNLFree (y :: r) = true := hdt ▸ ih htail
        by_cases hc : c = '\n'
        · subst hc
          apply tripleNLFree_nl_cons hyr
          intro h2
          have hshape : ∃ r2, y :: r = '\n' :: '\n' :: r2 := by
            match r with
            | [] => simp at h2
            | z :: r2 =>
              simp [List.take] at h2
              exact ⟨r2, by rw [h2.1, h2.2]⟩
          obtain ⟨r2, hr2⟩ := hshape
          obtain ⟨t2, ht2⟩ := dropTrail_two (hdt.trans hr2)
          rw [ht2] at htf
          simp [tripleNLFree] at htf
        · exact tripleNLFree_cons hc hyr

/-- `dropTrail` preserves absence of space/tab pairs. -/
theorem hwsPairFree_dropTrail :
    ∀ (l : List Char), hwsPairFree l = true →
      hwsPairFree (dropTrail l) = true := by
  intro l
  induction l with
  | nil => intro h; exact h
  | cons c rest ih =>
    intro hpf
    have htail := hwsPairFree_tail hpf
    simp only [dropTrail]
    by_cases he : (dropTrail rest).isEmpty = true
    · rw [if_pos he]
      by_cases hw : wsChar c = true
      · rw [if_pos hw]
        rfl
      · rw [if_neg hw]
        rfl
    · rw [if_neg he]
      rcases hdt : dropTrail rest with _ | ⟨y, r⟩
      · rw [hdt] at he
        simp at he
      · have hyr : hwsPairFree (y :: r) = true := hdt ▸ ih htail
        obtain ⟨t2, ht2⟩ := dropTrail_head hdt
        have hcy : ¬(hwsChar c = true ∧ hwsChar y = true) := by
          intro hand
          rw [ht2] at hpf
          simp only [hwsPairFree, Bool.and_eq_true] at hpf
          rcases hpf with ⟨hne, _⟩
          simp [hand.1, hand.2] at hne
        simp only [hwsPairFree, Bool.and_eq_true]
        refine ⟨?_, hyr⟩
        cases hb : hwsChar c
        · simp
        · cases hby : hwsChar y
          · simp [hby]
          · exact absurd ⟨hb, hby⟩ hcy

/-- `str.strip()` leaves no whitespace at either end. -/
theorem pyStrip_noEdgeWS (l : List Char) : noEdgeWS (pyStrip l) = true := by
  unfold noEdgeWS pyStrip
  rw [Bool.and_eq_true]
  constructor
  · rcases hh : dropTrail (l.dropWhile wsChar) with _ | ⟨x, t⟩
    · rfl
    · obtain ⟨t2, ht2⟩ := dropTrail_head hh
      have hx := dropWhile_head_not wsChar l ht2
      simp [hx]
  · rcases hL : (dropTrail (l.dropWhile wsChar)).getLast? with _ | x
    · simp
    · have hx := dropTrail_last_not_ws (l.dropWhile wsChar) hL
      simp [hx]

/-- Claim C10: the sanitizer's output is in whitespace normal form — no
leading or trailing whitespace, no run of three or more newlines, and no
run of two or more spaces/tabs. -/
theorem c10_whitespace_normal_form (s : String) :
    noEdgeWS (sanitize_output s).data = true ∧
    tripleNLFree (sanitize_output s).data = true ∧
    hwsPairFree (sanitize_output s).data = true := by
  unfold sanitize_output
  refine ⟨pyStrip_noEdgeWS _, ?_, ?_⟩
  · unfold pyStrip
    apply tripleNLFree_dropTrail
    apply tripleNLFree_dropWhile
    exact sanitizeStep5A_tripleNLFree _ [] (by simp)
      (sanitizeStep4A_tripleNLFree _ 0)
  · unfold pyStrip
    apply hwsPairFree_dropTrail
    apply hwsPairFree_dropWhile
    exact sanitizeStep5A_pairFree _ []
